import Mathlib

/-!
Shallow embedding of `src/main.py` (the "Magic Quadrant" Dash application).

The application keeps three module-level dictionaries:
  * `companies` : quadrant name → (company name → {"dual_use": bool})   (lines 15-20)
  * `logo_urls` : company name → url string                             (line 23)
  * `logos`     : company name → data-url string, or `None` when the
                  logo fetch failed                                     (line 24, 211)

Python dictionaries preserve insertion order, and `d[k] = v` on an existing
key updates the value in place keeping the key's position; we model a Python
dict as an insertion-ordered association list `List (String × α)` with a
`setVal` operation that has exactly those semantics.

`fetch_logo` (lines 27-39) performs HTTP I/O; its result is modelled as a
parameter `fetched : Option String` supplied by the environment (`none`
models a failed fetch, which Python stores as `None`).
-/

namespace MagicQuadrant

/-- The four quadrants, in the iteration order of the `companies` dict
literal of lines 15-20 (which is also the scan order of the delete handler
at line 217 and the row order of `generate_csv` at line 120). -/
inductive Quadrant where
  | visionaries
  | leaders
  | niche
  | challengers
deriving DecidableEq, Repr

/-- Iteration order of the `companies` dictionary (insertion order of the
literal at lines 15-20). -/
def quadrantOrder : List Quadrant :=
  [Quadrant.visionaries, Quadrant.leaders, Quadrant.niche, Quadrant.challengers]

/-- The display string of each quadrant (the keys of `companies`). -/
def quadrantName : Quadrant → String
  | Quadrant.visionaries => "Visionaries/Innovators"
  | Quadrant.leaders => "Leaders"
  | Quadrant.niche => "Niche Players"
  | Quadrant.challengers => "Challengers"

/-- The `positions` dict of `update_chart`, lines 45-50: the anchor
coordinate of each quadrant. -/
def positions : Quadrant → Int × Int
  | Quadrant.leaders => (75, 75)
  | Quadrant.challengers => (75, 25)
  | Quadrant.visionaries => (25, 75)
  | Quadrant.niche => (25, 25)

/-- A Python dict with string keys, as an insertion-ordered association list. -/
abbrev Dict (α : Type) : Type := List (String × α)

/-- Python `k in d` on a dict. -/
def Dict.containsKey {α : Type} (l : Dict α) (k : String) : Bool :=
  l.any (fun e => e.1 == k)

/-- Python `d.get(k)` on a dict (`none` when the key is absent). -/
def Dict.getVal {α : Type} (l : Dict α) (k : String) : Option α :=
  (List.find? (fun e => e.1 == k) l).map Prod.snd

/-- Python `d[k] = v` on a dict: updates the value in place when the key is
present (keeping its position), appends otherwise. -/
def Dict.setVal {α : Type} (l : Dict α) (k : String) (v : α) : Dict α :=
  if l.containsKey k then
    l.map (fun e => if e.1 == k then (e.1, v) else e)
  else
    l ++ [(k, v)]

/-- Python `del d[k]` on a dict. (Erasing an absent key is the identity;
the one place the code deletes a possibly-absent key — `del logos[name]` at
line 220 — raises `KeyError` there, which the surrounding `try` swallows
after the `companies` deletion of line 219 already happened, so the net
state effect is exactly unconditional erasure.) -/
def Dict.eraseKey {α : Type} (l : Dict α) (k : String) : Dict α :=
  l.filter (fun e => !(e.1 == k))

/-- The per-quadrant company dicts (`companies`, lines 15-20). The value of
an entry is its `"dual_use"` flag. -/
structure Companies where
  visionaries : Dict Bool
  leaders : Dict Bool
  niche : Dict Bool
  challengers : Dict Bool
deriving DecidableEq, Repr

/-- Lookup `companies[q]`. -/
def Companies.get (c : Companies) : Quadrant → Dict Bool
  | Quadrant.visionaries => c.visionaries
  | Quadrant.leaders => c.leaders
  | Quadrant.niche => c.niche
  | Quadrant.challengers => c.challengers

/-- Assignment `companies[q] = l`. -/
def Companies.set (c : Companies) (q : Quadrant) (l : Dict Bool) : Companies :=
  match q with
  | Quadrant.visionaries => { c with visionaries := l }
  | Quadrant.leaders => { c with leaders := l }
  | Quadrant.niche => { c with niche := l }
  | Quadrant.challengers => { c with challengers := l }

/-- The fresh `companies` value of lines 15-20 (and of the reset handler,
lines 230-235). -/
def emptyCompanies : Companies := ⟨[], [], [], []⟩

/-- The three module-level dictionaries together. -/
structure AppState where
  companies : Companies
  logo_urls : Dict String
  logos : Dict (Option String)
deriving DecidableEq, Repr

/-- The state at process start (lines 15-24), and after a reset
(lines 230-237). -/
def initState : AppState := ⟨emptyCompanies, [], []⟩

/-- Python truthiness of `logos.get(company)` (line 62-63): the company has
an entry, the stored value is not `None`, and (string truthiness) it is not
the empty string. -/
def logoTruthy (L : Dict (Option String)) (name : String) : Bool :=
  match L.getVal name with
  | some (some s) => !(s == "")
  | _ => false

/-- One `fig.add_layout_image` call (lines 64-76), reduced to the data the
spec's claims are about: which company's logo is placed, and at which
point. (`sizex`/`sizey` are the constants 10, `source` is the stored logo
string.) -/
structure PlacedImage where
  company : String
  x : Int
  y : Int
deriving DecidableEq, Repr

/-- The placed images of one quadrant (lines 60-76): enumerate the
quadrant's dict in insertion order with index `i`, and for each entry whose
logo is truthy emit an image at `(ax + (i % 3) * 10, ay - (i // 3) * 10)`.
The index comes from `enumerate`, i.e. it is assigned before the
logo-presence check. -/
def quadrantImages (L : Dict (Option String)) (a : Int × Int) (entities : Dict Bool) :
    List PlacedImage :=
  (List.enum entities).filterMap fun p =>
    if logoTruthy L p.2.1 then
      some { company := p.2.1,
             x := a.1 + ((p.1 % 3 : Nat) : Int) * 10,
             y := a.2 - ((p.1 / 3 : Nat) : Int) * 10 }
    else none

/-- The dict comprehension of line 54 / the identity of line 56: when the
filter is on, keep in every quadrant exactly the entries whose
`"dual_use"` flag is true; a new dict is built, `companies` itself is not
touched. -/
def filteredCompanies (c : Companies) (f : Bool) : Companies :=
  if f then
    { visionaries := c.visionaries.filter (fun e => e.2),
      leaders := c.leaders.filter (fun e => e.2),
      niche := c.niche.filter (fun e => e.2),
      challengers := c.challengers.filter (fun e => e.2) }
  else c

/-- Function `update_chart` (lines 41-103), with the global state passed explicitly.
The function only reads `companies` and `logos` (the comprehension of line
54 builds a new dict); it assigns to no global, so the state it was given
is returned unchanged — the returned state is the literal formalisation of
"the function body contains no store mutation". The figure is reduced to
its placed images; the divider lines, labels and axis set-up of lines
78-101 are fixed constants independent of the state. -/
def updateChart (s : AppState) (f : Bool) : List PlacedImage × AppState :=
  let filtered := filteredCompanies s.companies f
  ((quadrantOrder.map (fun q => quadrantImages s.logos (positions q) (filtered.get q))).flatten,
   s)

/-- One row of `generate_csv` (lines 122-126). -/
structure CsvRow where
  company : String
  quadrant : String
  dual_use : Bool
deriving DecidableEq, Repr

/-- Function `generate_csv` (lines 118-130): one row per stored entity, quadrants in
the iteration order of `companies`, entities in insertion order; the
function reads the unfiltered `companies` dict and takes no filter
argument. -/
def generateCsv (c : Companies) : List CsvRow :=
  (quadrantOrder.map (fun q =>
    (c.get q).map (fun e => CsvRow.mk e.1 (quadrantName q) e.2))).flatten

/-- Total number of stored entities across the four quadrants. -/
def totalCount (c : Companies) : Nat :=
  (quadrantOrder.map (fun q => (c.get q).length)).sum

/-- The add handler body, lines 208-211: if `company_name`, `quadrant` and
`logo_url` are all truthy, write the entity into `companies[quadrant]`,
record the url, and store the fetch result (possibly `None`); otherwise do
nothing. `quadrant` is the dropdown value (`None` until one is chosen);
empty string models both `None` and `""` for the two text inputs, whose
Python truthiness coincides. `dual` is `bool(dual_use)` of line 209. -/
def addCompany (s : AppState) (name : String) (q : Option Quadrant) (dual : Bool)
    (url : String) (fetched : Option String) : AppState :=
  match q with
  | none => s
  | some q =>
    if name == "" || url == "" then s
    else
      { companies := s.companies.set q ((s.companies.get q).setVal name dual),
        logo_urls := s.logo_urls.setVal name url,
        logos := s.logos.setVal name fetched }

/-- The delete handler body, lines 216-221: scan the quadrants in iteration
order for the first dict containing the name, delete the entry there and
the `logos` entry, and stop (`break`). `logo_urls` is not touched. -/
def deleteCompany (s : AppState) (name : String) : AppState :=
  match quadrantOrder.find? (fun q => (s.companies.get q).containsKey name) with
  | none => s
  | some q =>
    { s with
      companies := s.companies.set q ((s.companies.get q).eraseKey name),
      logos := s.logos.eraseKey name }

/-- Substring containment: the Python `in` operator on strings, used by the
dispatcher on `triggered_id` (lines 207, 214, 229). -/
def charsContain (pat : List Char) : List Char → Bool
  | [] => pat.isEmpty
  | c :: rest => pat.isPrefixOf (c :: rest) || charsContain pat rest

/-- Python `pat in s` on strings. -/
def substrOf (pat s : String) : Bool := charsContain pat.data s.data

/-- The `prop_id` reported when the add button fired. -/
def addTriggerId : String := "add-company-button.n_clicks"

/-- The `prop_id` reported when the reset button fired. -/
def resetTriggerId : String := "reset-graph-button.n_clicks"

/-- The `prop_id` reported when the title input changed. -/
def titleTriggerId : String := "title-input.value"

/-- The `prop_id` reported when the filter checklist changed. -/
def filterTriggerId : String := "dual-use-filter.value"

/-- The `prop_id` reported when the delete button of the entity `name`
fired: the pattern-matching id `\x7b'type': 'delete-button', 'index': name\x7d`
serialised as JSON, followed by `.n_clicks` (this is the string line 216
splits on `.` and passes to `eval`). -/
def deleteTriggerId (name : String) : String :=
  "\x7b\"index\":\"" ++ name ++ "\",\"type\":\"delete-button\"\x7d.n_clicks"

/-- The payload returned to the presentation layer (line 240): the echoed
title, the chart figure (reduced to its placed images), and the CSV rows of
the download link. The roster list of `generate_company_list` mirrors
`companies` directly and is omitted. -/
structure Payload where
  title : String
  chart : List PlacedImage
  exportRows : List CsvRow
deriving DecidableEq, Repr

/-- The observable result of one request: the post-request global state,
the `dual_use_filter_value` actually used for the chart, and the payload. -/
structure DispatchResult where
  state : AppState
  filterUsed : Bool
  payload : Payload
deriving DecidableEq, Repr

/-- Function `update_output` (lines 197-240), the mutation dispatcher, with the
global state passed explicitly.

* Each handler is guarded by a Python substring test on `triggered_id`
  (`'add-company-button' in triggered_id`, line 207, and likewise lines
  214 and 229) — faithfully modelled with `substrOf`, not by an equality
  test.
* `deleteIndex` models the result of
  `eval(triggered_id.split('.')[0])['index']` at line 216: the entity name
  recovered from the delete button's id (`none` models an `eval`/lookup
  failure, whose exception the handler catches having mutated nothing).
  For a real click on entity `name`'s delete button, `triggeredId`
  is `deleteTriggerId name` and `deleteIndex` is `some name`.
* `dualUseFilter` is the truthiness of
  `dual_use_filter and 'dual_use' in dual_use_filter` (line 226);
  `fetched` is the `fetch_logo` result as in `addCompany`.
* The reset handler (lines 229-238) rebinds all three dicts to fresh empty
  ones and clears the filter value; this is `initState`.
* Line 240 recomputes chart, roster and CSV from the post-mutation state;
  the state returned by `updateChart` is threaded into the result. -/
def updateOutput (s : AppState) (triggeredId : String) (deleteIndex : Option String)
    (title : String) (dualUseFilter : Bool) (companyName : String)
    (quadrant : Option Quadrant) (dualUse : Bool) (logoUrl : String)
    (fetched : Option String) : DispatchResult :=
  let titleOutput := title
  let s1 := if substrOf "add-company-button" triggeredId then
              addCompany s companyName quadrant dualUse logoUrl fetched
            else s
  let s2 := if substrOf "delete-button" triggeredId then
              match deleteIndex with
              | some nm => deleteCompany s1 nm
              | none => s1
            else s1
  let s3f : AppState × Bool :=
    if substrOf "reset-graph-button" triggeredId then (initState, false)
    else (s2, dualUseFilter)
  let chartSt := updateChart s3f.1 s3f.2
  { state := chartSt.2,
    filterUsed := s3f.2,
    payload := { title := titleOutput,
                 chart := chartSt.1,
                 exportRows := generateCsv chartSt.2.companies } }

/-- The grouped view of one quadrant: each entity with its dual-use flag
and its logo reference (`logos.get(name)`); this is the per-quadrant data
every derived output (chart, roster, CSV) reads. -/
def snapshotQ (s : AppState) (q : Quadrant) : List (String × Bool × Option (Option String)) :=
  (s.companies.get q).map (fun e => (e.1, e.2, s.logos.getVal e.1))

/-- The store snapshot: the four quadrants' grouped views in iteration
order. -/
def snapshot (s : AppState) : List (List (String × Bool × Option (Option String))) :=
  quadrantOrder.map (snapshotQ s)

/-! Helper lemmas about the dictionary model and the store. -/

theorem Dict.not_containsKey_iff {α : Type} (l : Dict α) (k : String) :
    l.containsKey k = false ↔ ∀ e ∈ l, ¬ e.1 = k := by
  simp [Dict.containsKey, List.any_eq_false]

theorem Dict.containsKey_of_mem {α : Type} {l : Dict α} {e : String × α} (he : e ∈ l) :
    l.containsKey e.1 = true :=
  List.any_eq_true.mpr ⟨e, he, by simp⟩

theorem Dict.getVal_mapValAt_ne {α : Type} (l : Dict α) (k m : String) (v : α)
    (h : ¬ m = k) :
    Dict.getVal (l.map (fun e => if e.1 == k then (e.1, v) else e)) m = Dict.getVal l m := by
  induction l with
  | nil => rfl
  | cons a l ih =>
    by_cases ham : (a.1 == m) = true
    · have hak : ¬ (a.1 == k) = true := by
        intro hk
        exact h ((eq_of_beq ham).symm.trans (eq_of_beq hk))
      rw [List.map_cons, if_neg hak]
      unfold Dict.getVal
      rw [List.find?_cons, List.find?_cons]
      simp only [ham]
    · have ham2 : (a.1 == m) = false := by simpa using ham
      have hhead : (if a.1 == k then (a.1, v) else a) :: l.map (fun e => if e.1 == k then (e.1, v) else e)
          = ((a.1, if a.1 == k then v else a.2)) :: l.map (fun e => if e.1 == k then (e.1, v) else e) := by
        split <;> rfl
      rw [List.map_cons, hhead]
      unfold Dict.getVal
      rw [List.find?_cons, List.find?_cons]
      simp only [ham2]
      exact ih

theorem Dict.getVal_append_single_ne {α : Type} (l : Dict α) (k m : String) (v : α)
    (h : ¬ m = k) :
    Dict.getVal (l ++ [(k, v)]) m = Dict.getVal l m := by
  induction l with
  | nil =>
    have hk : (k == m) = false := by simp; intro hh; exact h hh.symm
    simp [Dict.getVal, List.find?_cons, hk, List.find?]
  | cons a l ih =>
    by_cases ham : (a.1 == m) = true
    · simp [Dict.getVal, List.find?_cons, ham]
    · simp only [List.cons_append, Dict.getVal, List.find?_cons, ham]
      exact ih

theorem Dict.getVal_setVal_ne {α : Type} (l : Dict α) (k m : String) (v : α)
    (h : ¬ m = k) :
    Dict.getVal (Dict.setVal l k v) m = Dict.getVal l m := by
  unfold Dict.setVal
  split
  · exact Dict.getVal_mapValAt_ne l k m v h
  · exact Dict.getVal_append_single_ne l k m v h

theorem Dict.getVal_eraseKey_ne {α : Type} (l : Dict α) (k m : String)
    (h : ¬ m = k) :
    Dict.getVal (Dict.eraseKey l k) m = Dict.getVal l m := by
  induction l with
  | nil => rfl
  | cons a l ih =>
    by_cases hak : (a.1 == k) = true
    · have ha1 : a.1 = k := eq_of_beq hak
      have ham : (a.1 == m) = false := by
        simp only [beq_eq_false_iff_ne, ne_eq, ha1]
        intro hh
        exact h hh.symm
      have herase : Dict.eraseKey (a :: l) k = Dict.eraseKey l k := by
        unfold Dict.eraseKey
        rw [List.filter_cons]
        simp [hak]
      rw [herase]
      conv_rhs => unfold Dict.getVal
      rw [List.find?_cons]
      simp only [ham]
      exact ih
    · have hak2 : (a.1 == k) = false := by simpa using hak
      have herase : Dict.eraseKey (a :: l) k = a :: Dict.eraseKey l k := by
        unfold Dict.eraseKey
        rw [List.filter_cons]
        simp [hak2]
      rw [herase]
      unfold Dict.getVal
      rw [List.find?_cons, List.find?_cons]
      by_cases ham : (a.1 == m) = true
      · simp only [ham]
      · have ham2 : (a.1 == m) = false := by simpa using ham
        simp only [ham2]
        exact ih

theorem Dict.setVal_of_not_contains {α : Type} (l : Dict α) (k : String) (v : α)
    (h : l.containsKey k = false) :
    Dict.setVal l k v = l ++ [(k, v)] := by
  unfold Dict.setVal
  rw [h]
  simp

theorem Dict.eraseKey_append_single {α : Type} (l : Dict α) (k : String) (v : α)
    (h : l.containsKey k = false) :
    Dict.eraseKey (l ++ [(k, v)]) k = l := by
  unfold Dict.eraseKey
  rw [List.filter_append]
  have h1 : List.filter (fun e => !(e.1 == k)) l = l := by
    rw [List.filter_eq_self]
    intro e he
    have := (Dict.not_containsKey_iff l k).mp h e he
    simpa using this
  have h2 : List.filter (fun e => !((e : String × α).1 == k)) [(k, v)] = [] := by
    simp [List.filter_cons]
  rw [h1, h2, List.append_nil]

theorem Companies.get_set_self (c : Companies) (q : Quadrant) (l : Dict Bool) :
    (c.set q l).get q = l := by
  cases q <;> rfl

theorem Companies.get_set_ne (c : Companies) (q q' : Quadrant) (l : Dict Bool)
    (h : ¬ q' = q) :
    (c.set q l).get q' = c.get q' := by
  cases q <;> cases q' <;> first | rfl | exact absurd rfl h

theorem Companies.set_set (c : Companies) (q : Quadrant) (l1 l2 : Dict Bool) :
    (c.set q l1).set q l2 = c.set q l2 := by
  cases q <;> rfl

theorem Companies.set_get_self (c : Companies) (q : Quadrant) :
    c.set q (c.get q) = c := by
  cases q <;> rfl

theorem find?_quadrantOrder_eq (p : Quadrant → Bool) (q : Quadrant) (hq : p q = true)
    (ho : ∀ r, ¬ r = q → p r = false) :
    quadrantOrder.find? p = some q := by
  cases q
  · simp [quadrantOrder, List.find?, hq]
  · have h1 := ho Quadrant.visionaries (by simp)
    simp [quadrantOrder, List.find?, h1, hq]
  · have h1 := ho Quadrant.visionaries (by simp)
    have h2 := ho Quadrant.leaders (by simp)
    simp [quadrantOrder, List.find?, h1, h2, hq]
  · have h1 := ho Quadrant.visionaries (by simp)
    have h2 := ho Quadrant.leaders (by simp)
    have h3 := ho Quadrant.niche (by simp)
    simp [quadrantOrder, List.find?, h1, h2, h3, hq]

theorem deleteCompany_of_absent (s : AppState) (name : String)
    (h : ∀ qq, (s.companies.get qq).containsKey name = false) :
    deleteCompany s name = s := by
  unfold deleteCompany
  have hfind : quadrantOrder.find? (fun q => (s.companies.get q).containsKey name) = none := by
    rw [List.find?_eq_none]
    intro x _
    simp [h x]
  rw [hfind]

theorem snapshot_congr (s s' : AppState) (hc : s'.companies = s.companies)
    (hl : ∀ qq, ∀ e ∈ s.companies.get qq, Dict.getVal s'.logos e.1 = Dict.getVal s.logos e.1) :
    snapshot s' = snapshot s := by
  unfold snapshot
  refine List.map_congr_left ?_
  intro qq _
  unfold snapshotQ
  rw [hc]
  refine List.map_congr_left ?_
  intro e he
  rw [hl qq e he]

theorem filterMap_if_eq_map_filter {α β : Type} (c : α → Bool) (g : α → β) (l : List α) :
    l.filterMap (fun x => if c x then some (g x) else none) = (l.filter c).map g := by
  induction l with
  | nil => rfl
  | cons a l ih =>
    by_cases h : c a = true
    · rw [List.filterMap_cons, List.filter_cons]
      simp only [h, if_true, List.map_cons]
      rw [ih]
    · have h2 : c a = false := by simpa using h
      rw [List.filterMap_cons, List.filter_cons]
      simp only [h2]
      exact ih

theorem pairwise_fst_lt_enumFrom {α : Type} (l : List α) :
    ∀ n, List.Pairwise (fun p q : Nat × α => p.1 < q.1) (List.enumFrom n l) := by
  induction l with
  | nil => intro n; exact List.Pairwise.nil
  | cons a l ih =>
    intro n
    refine List.Pairwise.cons ?_ (ih (n + 1))
    rintro ⟨i, x⟩ hq
    have := (List.mk_mem_enumFrom_iff_le_and_getElem?_sub.mp hq).1
    omega

/-- Membership direction of the placement rule: the entry at index `i` of a
quadrant's dict, when its logo is truthy, yields an image at
`(ax + (i % 3) * 10, ay - (i / 3) * 10)`. -/
theorem mem_quadrantImages_of_getElem (L : Dict (Option String)) (a : Int × Int)
    (entities : Dict Bool) (i : Nat) (e : String × Bool)
    (hget : entities[i]? = some e) (hlogo : logoTruthy L e.1 = true) :
    PlacedImage.mk e.1 (a.1 + ((i % 3 : Nat) : Int) * 10) (a.2 - ((i / 3 : Nat) : Int) * 10)
      ∈ quadrantImages L a entities := by
  unfold quadrantImages
  refine List.mem_filterMap.mpr ⟨(i, e), ?_, ?_⟩
  · exact List.mk_mem_enum_iff_getElem?.mpr hget
  · simp [hlogo]

/-- No two images of one quadrant share a cell: the images inherit the
strictly increasing enumeration indices, and the cell map is injective. -/
theorem quadrantImages_pairwise_cells (L : Dict (Option String)) (a : Int × Int)
    (entities : Dict Bool) :
    List.Pairwise (fun p q : PlacedImage => ¬ p.x = q.x ∨ ¬ p.y = q.y)
      (quadrantImages L a entities) := by
  unfold quadrantImages
  rw [filterMap_if_eq_map_filter, List.pairwise_map]
  refine List.Pairwise.filter _ ?_
  have hlt := pairwise_fst_lt_enumFrom entities 0
  refine List.Pairwise.imp ?_ hlt
  rintro ⟨i, e⟩ ⟨j, e2⟩ hij
  by_cases h3 : i % 3 = j % 3
  · right
    intro heq
    simp only at heq
    omega
  · left
    intro heq
    simp only at heq
    omega

/-! Claim theorems. -/

/-- Claim C1 (code bug): the claimed invariant — a name appears in at most
one quadrant's mapping, because a successful add removes the name from any
other quadrant — is violated by the code: the add handler (lines 208-211)
only writes `companies[quadrant][company_name]` and never scans the other
quadrants. Adding "Acme" to Challengers and then adding "Acme" to Leaders
(two requests through the dispatcher) leaves "Acme" in both quadrants'
mappings at once. -/
theorem addExistingNameElsewhereDuplicates :
    Dict.containsKey (updateOutput (updateOutput initState addTriggerId none "T" false
        "Acme" (some Quadrant.challengers) false "u" (some "img")).state addTriggerId
        none "T" false "Acme" (some Quadrant.leaders) false "u"
        (some "img")).state.companies.challengers "Acme" = true
    ∧ Dict.containsKey (updateOutput (updateOutput initState addTriggerId none "T" false
        "Acme" (some Quadrant.challengers) false "u" (some "img")).state addTriggerId
        none "T" false "Acme" (some Quadrant.leaders) false "u"
        (some "img")).state.companies.leaders "Acme" = true := by
  decide

/-- Claim C2 (confirmed): in any store snapshot, the entity at
insertion-index `i` of a quadrant with anchor `(ax, ay)` is placed (when
its logo resolved) at exactly `(ax + (i % 3) * 10, ay - (i / 3) * 10)`,
and no two placed images of the same quadrant ever share a grid cell. -/
theorem chart_cell_assignment (L : Dict (Option String)) (a : Int × Int)
    (entities : Dict Bool) :
    (∀ i e, entities[i]? = some e → logoTruthy L e.1 = true →
      PlacedImage.mk e.1 (a.1 + ((i % 3 : Nat) : Int) * 10) (a.2 - ((i / 3 : Nat) : Int) * 10)
        ∈ quadrantImages L a entities)
    ∧ List.Pairwise (fun p q : PlacedImage => ¬ p.x = q.x ∨ ¬ p.y = q.y)
        (quadrantImages L a entities) :=
  ⟨fun i e h1 h2 => mem_quadrantImages_of_getElem L a entities i e h1 h2,
   quadrantImages_pairwise_cells L a entities⟩

/-- Witness for C2 at a concrete input: in a Leaders dict holding "A" and
"B" with both logos resolved, the index-1 entity "B" is placed at
`(75 + 10, 75)`. -/
theorem chart_cell_assignment_witness :
    PlacedImage.mk "B" ((75 : Int) + ((1 % 3 : Nat) : Int) * 10)
        ((75 : Int) - ((1 / 3 : Nat) : Int) * 10)
      ∈ quadrantImages [("A", some "la"), ("B", some "lb")] (75, 75)
        [("A", false), ("B", true)] :=
  (chart_cell_assignment [("A", some "la"), ("B", some "lb")] (75, 75)
    [("A", false), ("B", true)]).1 1 ("B", true) (by decide) (by decide)

/-- Claim C4 (code bug): the dispatcher is meant to apply exactly the one
action whose input changed, but it tests `triggered_id` with Python
substring containment (lines 207, 214, 229). Clicking the Delete button of
an entity literally named "add-company-button" produces a `triggered_id`
that contains both "delete-button" and "add-company-button", so one
request runs the delete mutation and the add mutation: the entity is
deleted and the pending form contents ("NewCo") are inserted. -/
theorem deleteClickAlsoRunsAdd :
    Dict.containsKey (updateOutput (addCompany initState "add-company-button"
        (some Quadrant.leaders) false "u" (some "x")) (deleteTriggerId "add-company-button")
        (some "add-company-button") "T" false "NewCo" (some Quadrant.leaders) false
        "u2" (some "y")).state.companies.leaders "NewCo" = true
    ∧ Dict.containsKey (updateOutput (addCompany initState "add-company-button"
        (some Quadrant.leaders) false "u" (some "x")) (deleteTriggerId "add-company-button")
        (some "add-company-button") "T" false "NewCo" (some Quadrant.leaders) false
        "u2" (some "y")).state.companies.leaders "add-company-button" = false := by
  decide

/-- Claim C5 (confirmed): computing the layout with the dual-use filter on
never mutates the store — `update_chart` assigns to no global, so the
state it reads is the state after it — and the filtered view keeps the
four-quadrant structure and per-quadrant order while holding exactly the
entities whose `dual_use` flag is true. -/
theorem filtered_chart_no_mutation (s : AppState) (f : Bool) :
    ((updateChart s f).2 = s)
    ∧ (∀ q, (filteredCompanies s.companies true).get q
        = (s.companies.get q).filter (fun e => e.2))
    ∧ (∀ q e, e ∈ (filteredCompanies s.companies true).get q
        ↔ e ∈ s.companies.get q ∧ e.2 = true) := by
  refine ⟨rfl, ?_, ?_⟩
  · intro q
    cases q <;> rfl
  · intro q e
    have hq : (filteredCompanies s.companies true).get q
        = (s.companies.get q).filter (fun e => e.2) := by cases q <;> rfl
    rw [hq]
    exact List.mem_filter

/-- Claim C9 (confirmed): a reset request empties all four quadrant
mappings, discards the logos and logo urls, clears the dual-use filter
value, and echoes the title input unchanged. -/
theorem reset_clears_store_keeps_title (s : AppState) (di : Option String) (t : String)
    (f : Bool) (cn : String) (q : Option Quadrant) (du : Bool) (lu : String)
    (fe : Option String) :
    let r := updateOutput s resetTriggerId di t f cn q du lu fe
    (∀ qd, r.state.companies.get qd = [])
    ∧ r.state.logos = [] ∧ r.state.logo_urls = []
    ∧ r.filterUsed = false ∧ r.payload.title = t := by
  have h1 : substrOf "add-company-button" resetTriggerId = false := by decide
  have h2 : substrOf "delete-button" resetTriggerId = false := by decide
  have h3 : substrOf "reset-graph-button" resetTriggerId = true := by decide
  have hstate : (updateOutput s resetTriggerId di t f cn q du lu fe).state = initState := by
    simp [updateOutput, h1, h2, h3, updateChart]
  refine ⟨?_, ?_, ?_, ?_, ?_⟩
  · intro qd
    rw [hstate]
    cases qd <;> rfl
  · rw [hstate]
    rfl
  · rw [hstate]
    rfl
  · simp [updateOutput, h1, h2, h3]
  · simp [updateOutput, h1, h2, h3, updateChart]

/-- Claim C8 (confirmed): when the add button fired but the company name,
the quadrant choice or the logo url is empty/missing, the guard of line
208 skips the whole add — no entity, logo-url or logo entry is created and
the state after the request equals the state before it (the spec's
`ValidationError` is exactly this silent abandonment). -/
theorem add_missing_field_leaves_state_unchanged (s : AppState) (t : String) (f : Bool)
    (cn : String) (q : Option Quadrant) (du : Bool) (lu : String) (fe : Option String)
    (h : cn = "" ∨ q = none ∨ lu = "") :
    addCompany s cn q du lu fe = s
    ∧ (updateOutput s addTriggerId none t f cn q du lu fe).state = s := by
  have hadd : addCompany s cn q du lu fe = s := by
    match q, h with
    | none, _ => rfl
    | some q', Or.inl hcn =>
      subst hcn
      simp [addCompany]
    | some q', Or.inr (Or.inl hq) => exact Option.noConfusion hq
    | some q', Or.inr (Or.inr hlu) =>
      subst hlu
      simp [addCompany]
  have h1 : substrOf "add-company-button" addTriggerId = true := by decide
  have h2 : substrOf "delete-button" addTriggerId = false := by decide
  have h3 : substrOf "reset-graph-button" addTriggerId = false := by decide
  refine ⟨hadd, ?_⟩
  simp [updateOutput, h1, h2, h3, hadd, updateChart]

/-- Witness for C8: adding with an empty company name from the empty state
changes nothing. -/
theorem add_missing_field_leaves_state_unchanged_witness :
    addCompany initState "" (some Quadrant.leaders) false "u" (some "x") = initState
    ∧ (updateOutput initState addTriggerId none "T" false ""
        (some Quadrant.leaders) false "u" (some "x")).state = initState :=
  add_missing_field_leaves_state_unchanged initState "T" false ""
    (some Quadrant.leaders) false "u" (some "x") (Or.inl rfl)

/-- Claim C6 (confirmed): an entity whose logo reference did not resolve
produces no placed image, yet it is still counted by `enumerate`, so an
entity with a resolved logo at index `i` is placed at the cell of index
`i` — the same cell under the actual logo map `L` and under any map
`Lfull` in which its logo also resolves (e.g. one where every logo
resolved): earlier failures never shift later entities. -/
theorem unresolved_logo_still_counted (L Lfull : Dict (Option String)) (a : Int × Int)
    (entities : Dict Bool) (i : Nat) (e : String × Bool)
    (hget : entities[i]? = some e) :
    (logoTruthy L e.1 = false →
      ∀ img ∈ quadrantImages L a entities, ¬ img.company = e.1)
    ∧ (logoTruthy L e.1 = true → logoTruthy Lfull e.1 = true →
      PlacedImage.mk e.1 (a.1 + ((i % 3 : Nat) : Int) * 10) (a.2 - ((i / 3 : Nat) : Int) * 10)
        ∈ quadrantImages L a entities
      ∧ PlacedImage.mk e.1 (a.1 + ((i % 3 : Nat) : Int) * 10) (a.2 - ((i / 3 : Nat) : Int) * 10)
        ∈ quadrantImages Lfull a entities) := by
  constructor
  · intro hfalse img himg
    unfold quadrantImages at himg
    obtain ⟨p, _, hf⟩ := List.mem_filterMap.mp himg
    split at hf
    case isTrue hc =>
      cases hf
      intro heq
      have heq2 : p.2.1 = e.1 := heq
      rw [heq2] at hc
      simp [hfalse] at hc
    case isFalse => cases hf
  · intro hL hLfull
    exact ⟨mem_quadrantImages_of_getElem L a entities i e hget hL,
      mem_quadrantImages_of_getElem Lfull a entities i e hget hLfull⟩

/-- Witness for C6: with "A" unresolved and "B" resolved, "B" (index 1)
keeps the index-1 cell both under the actual map and under a fully
resolved map. -/
theorem unresolved_logo_still_counted_witness :
    PlacedImage.mk "B" ((75 : Int) + ((1 % 3 : Nat) : Int) * 10)
        ((75 : Int) - ((1 / 3 : Nat) : Int) * 10)
      ∈ quadrantImages [("A", none), ("B", some "lb")] (75, 75)
        [("A", true), ("B", true)]
    ∧ PlacedImage.mk "B" ((75 : Int) + ((1 % 3 : Nat) : Int) * 10)
        ((75 : Int) - ((1 / 3 : Nat) : Int) * 10)
      ∈ quadrantImages [("A", some "la"), ("B", some "lb")] (75, 75)
        [("A", true), ("B", true)] :=
  (unresolved_logo_still_counted [("A", none), ("B", some "lb")]
    [("A", some "la"), ("B", some "lb")] (75, 75) [("A", true), ("B", true)] 1
    ("B", true) (by decide)).2 (by decide) (by decide)

/-- Claim C7 (confirmed): the export always holds one row per stored
entity — its length is the total entity count across the four quadrants —
each row carrying the company name, the quadrant name and the dual-use
flag; and the dispatcher's export output is the same for every value of
the filter input, so the active filter never removes export records. -/
theorem export_full_roster (c : Companies) (s : AppState) (tid : String)
    (di : Option String) (t : String) (f f2 : Bool) (cn : String) (q : Option Quadrant)
    (du : Bool) (lu : String) (fe : Option String) :
    ((generateCsv c).length = totalCount c)
    ∧ ((updateOutput s tid di t f cn q du lu fe).payload.exportRows
        = (updateOutput s tid di t f2 cn q du lu fe).payload.exportRows)
    ∧ (∀ (qd : Quadrant) (j : Nat) (e : String × Bool), (c.get qd)[j]? = some e →
        CsvRow.mk e.1 (quadrantName qd) e.2 ∈ generateCsv c) := by
  refine ⟨?_, ?_, ?_⟩
  · unfold generateCsv totalCount
    rw [List.length_flatten, List.map_map]
    congr 1
    refine List.map_congr_left ?_
    intro qd _
    simp [List.length_map]
  · by_cases hr : substrOf "reset-graph-button" tid = true
    · simp [updateOutput, hr, updateChart]
    · have hr2 : substrOf "reset-graph-button" tid = false := by simpa using hr
      simp [updateOutput, hr2, updateChart]
  · intro qd j e hget
    have hmem : e ∈ c.get qd := by
      obtain ⟨hlt, hval⟩ := List.getElem?_eq_some_iff.mp hget
      exact hval ▸ List.getElem_mem hlt
    unfold generateCsv
    refine List.mem_flatten.mpr ⟨(c.get qd).map (fun e2 => CsvRow.mk e2.1 (quadrantName qd) e2.2), ?_, ?_⟩
    · refine List.mem_map.mpr ⟨qd, ?_, rfl⟩
      cases qd <;> simp [quadrantOrder]
    · exact List.mem_map.mpr ⟨e, hmem, rfl⟩

/-- Witness for C7 at a concrete store: the Leaders entry "A" yields its
export row. -/
theorem export_full_roster_witness :
    CsvRow.mk "A" (quadrantName Quadrant.leaders) true
      ∈ generateCsv ⟨[], [("A", true)], [], []⟩ :=
  (export_full_roster ⟨[], [("A", true)], [], []⟩ initState "" none "" false false ""
    none false "" none).2.2 Quadrant.leaders 0 ("A", true) (by decide)

theorem nodup_getElem?_inj {α : Type} {l : List α} (h : l.Nodup) {i j : Nat} {x : α}
    (hi : l[i]? = some x) (hj : l[j]? = some x) : i = j := by
  obtain ⟨hi1, hi2⟩ := List.getElem?_eq_some_iff.mp hi
  obtain ⟨hj1, hj2⟩ := List.getElem?_eq_some_iff.mp hj
  exact h.getElem_inj_iff.mp (hi2.trans hj2.symm)

theorem deleteCompany_eq_of_find (s : AppState) (name : String) (q : Quadrant)
    (hfind : quadrantOrder.find? (fun qq => (s.companies.get qq).containsKey name) = some q) :
    deleteCompany s name =
      { s with companies := s.companies.set q ((s.companies.get q).eraseKey name),
               logos := s.logos.eraseKey name } := by
  unfold deleteCompany
  rw [hfind]

theorem containsKey_append_single {α : Type} (l : Dict α) (k : String) (v : α) :
    Dict.containsKey (l ++ [(k, v)]) k = true := by
  unfold Dict.containsKey
  rw [List.any_append]
  simp

/-- Claim C3 (corrected), counterexample: with "Acme" already stored in
Leaders, re-adding "Acme" to Leaders and then deleting "Acme" does not
return the store to its prior snapshot — the pre-existing entity is gone. -/
theorem add_delete_roundtrip_counterexample :
    ¬ snapshot (deleteCompany (addCompany (addCompany initState "Acme"
          (some Quadrant.leaders) false "u" (some "x")) "Acme" (some Quadrant.leaders)
          true "u2" (some "y")) "Acme")
      = snapshot (addCompany initState "Acme" (some Quadrant.leaders) false "u"
          (some "x")) := by
  decide

/-- Claim C3 (corrected), amended: if the added name is not already present
in any quadrant, Add followed by Delete of that name does return the store
snapshot (the quadrant-grouped entities with their logo references) to its
prior value. (The raw `logo_urls` dict keeps a residual entry — the delete
handler never touches it — but that entry is outside the snapshot.) -/
theorem add_delete_roundtrip_fresh (s : AppState) (name : String) (q : Option Quadrant)
    (dual : Bool) (url : String) (fetched : Option String)
    (hfresh : ∀ qq, (s.companies.get qq).containsKey name = false) :
    snapshot (deleteCompany (addCompany s name q dual url fetched) name) = snapshot s := by
  match q with
  | none =>
    show snapshot (deleteCompany s name) = snapshot s
    rw [deleteCompany_of_absent s name hfresh]
  | some q2 =>
    by_cases hguard : (name == "" || url == "") = true
    · have hadd : addCompany s name (some q2) dual url fetched = s := by
        simp only [addCompany]
        rw [if_pos hguard]
      rw [hadd, deleteCompany_of_absent s name hfresh]
    · have hguard2 : ¬ (name == "" || url == "") = true := hguard
      have hnc : (s.companies.get q2).containsKey name = false := hfresh q2
      have hadd : addCompany s name (some q2) dual url fetched =
          { companies := s.companies.set q2 (s.companies.get q2 ++ [(name, dual)]),
            logo_urls := s.logo_urls.setVal name url,
            logos := s.logos.setVal name fetched } := by
        simp only [addCompany]
        rw [if_neg hguard2, Dict.setVal_of_not_contains _ _ _ hnc]
      rw [hadd]
      set s2 : AppState :=
        { companies := s.companies.set q2 (s.companies.get q2 ++ [(name, dual)]),
          logo_urls := s.logo_urls.setVal name url,
          logos := s.logos.setVal name fetched } with hs2
      have hget2 : s2.companies.get q2 = s.companies.get q2 ++ [(name, dual)] := by
        rw [hs2]
        exact Companies.get_set_self s.companies q2 (s.companies.get q2 ++ [(name, dual)])
      have hfind : quadrantOrder.find?
          (fun qq => (s2.companies.get qq).containsKey name) = some q2 := by
        refine find?_quadrantOrder_eq _ q2 ?_ ?_
        · rw [hget2]
          exact containsKey_append_single (s.companies.get q2) name dual
        · intro r hr
          have : s2.companies.get r = s.companies.get r := by
            rw [hs2]
            exact Companies.get_set_ne s.companies q2 r _ hr
          rw [this]
          exact hfresh r
      rw [deleteCompany_eq_of_find s2 name q2 hfind]
      have hC : s2.companies.set q2 ((s2.companies.get q2).eraseKey name) = s.companies := by
        rw [hget2, Dict.eraseKey_append_single _ _ _ hnc, hs2]
        rw [Companies.set_set, Companies.set_get_self]
      refine snapshot_congr s _ ?_ ?_
      · exact hC
      · intro qq e he
        have hne : ¬ e.1 = name := (Dict.not_containsKey_iff _ _).mp (hfresh qq) e he
        show Dict.getVal ((s.logos.setVal name fetched).eraseKey name) e.1
            = Dict.getVal s.logos e.1
        rw [Dict.getVal_eraseKey_ne _ _ _ hne, Dict.getVal_setVal_ne _ _ _ _ hne]

/-- Witness for the amended C3: adding the fresh name "Zed" to Niche on top
of a store holding "Acme" in Leaders and then deleting "Zed" restores the
snapshot. -/
theorem add_delete_roundtrip_fresh_witness :
    snapshot (deleteCompany (addCompany (addCompany initState "Acme"
        (some Quadrant.leaders) false "u" (some "x")) "Zed" (some Quadrant.niche) true
        "u2" none) "Zed")
      = snapshot (addCompany initState "Acme" (some Quadrant.leaders) false "u" (some "x")) :=
  add_delete_roundtrip_fresh
    (addCompany initState "Acme" (some Quadrant.leaders) false "u" (some "x"))
    "Zed" (some Quadrant.niche) true "u2" none
    (by intro qq; cases qq <;> decide)

/-- Claim C10 (confirmed): re-adding a name that already exists in the same
quadrant overwrites the entry's value in place — the entry keeps its
insertion index (so its grid cell and roster position), the quadrant's
length is unchanged, and every other index is untouched. -/
theorem readd_same_quadrant_keeps_position (s : AppState) (qd : Quadrant) (i : Nat)
    (name : String) (d d2 : Bool) (url : String) (fe : Option String)
    (hnd : ((s.companies.get qd).map Prod.fst).Nodup)
    (hget : (s.companies.get qd)[i]? = some (name, d))
    (hname : ¬ name = "") (hurl : ¬ url = "") :
    ((addCompany s name (some qd) d2 url fe).companies.get qd)[i]? = some (name, d2)
    ∧ ((addCompany s name (some qd) d2 url fe).companies.get qd).length
        = (s.companies.get qd).length
    ∧ ∀ j, ¬ j = i → ((addCompany s name (some qd) d2 url fe).companies.get qd)[j]?
        = (s.companies.get qd)[j]? := by
  have hmem : (name, d) ∈ s.companies.get qd := by
    obtain ⟨hlt, hval⟩ := List.getElem?_eq_some_iff.mp hget
    exact hval ▸ List.getElem_mem hlt
  have hck : (s.companies.get qd).containsKey name = true := Dict.containsKey_of_mem hmem
  have hset : (addCompany s name (some qd) d2 url fe).companies.get qd
      = (s.companies.get qd).map (fun e => if e.1 == name then (e.1, d2) else e) := by
    simp only [addCompany]
    rw [if_neg (by simp [hname, hurl])]
    rw [Companies.get_set_self]
    unfold Dict.setVal
    rw [if_pos hck]
  refine ⟨?_, ?_, ?_⟩
  · rw [hset, List.getElem?_map, hget]
    simp
  · rw [hset, List.length_map]
  · intro j hji
    rw [hset, List.getElem?_map]
    cases hj : (s.companies.get qd)[j]? with
    | none => rfl
    | some e2 =>
      have hne : ¬ e2.1 = name := by
        intro he
        have hki : ((s.companies.get qd).map Prod.fst)[i]? = some name := by
          rw [List.getElem?_map, hget]
          rfl
        have hkj : ((s.companies.get qd).map Prod.fst)[j]? = some name := by
          rw [List.getElem?_map, hj]
          exact congrArg some he
        exact hji (nodup_getElem?_inj hnd hkj hki)
      have hbeq : ¬ (e2.1 == name) = true := by simpa using hne
      exact congrArg some (if_neg hbeq)

/-- Witness for C10: overwriting "B" (stored at Leaders index 1 with flag
true) with flag false keeps it at index 1. -/
theorem readd_same_quadrant_keeps_position_witness :
    ((addCompany ⟨⟨[], [("A", false), ("B", true)], [], []⟩, [], []⟩ "B"
        (some Quadrant.leaders) false "u" none).companies.get Quadrant.leaders)[1]?
      = some ("B", false) :=
  (readd_same_quadrant_keeps_position ⟨⟨[], [("A", false), ("B", true)], [], []⟩, [], []⟩
    Quadrant.leaders 1 "B" true false "u" none (by decide) (by decide) (by decide)
    (by decide)).1

end MagicQuadrant
